import Mathlib

set_option maxRecDepth 8000

/- Verification model of the Spartan Read Aloud backend (src/Code.js and
   src/Gemini.js).  JavaScript strings are modelled as `List Char`; sheet cells
   as their string contents (a JS falsy cell is the empty list); byte buffers
   as `List Nat` with each entry reduced modulo 256; external collaborators
   (Drive folders, the speech-synthesis provider, wall-clock time) as explicit
   environment records passed to the functions that consult them. -/

/-- Character class of the JavaScript regex token for whitespace
(ECMA-262 WhiteSpace plus LineTerminator). -/
def jsIsSpace (c : Char) : Bool :=
  c = ' ' || c = '\t' || c = '\n' || c = '\r' || c = '\x0b' || c = '\x0c' ||
  c.toNat = 0xa0 || c.toNat = 0x1680 || (0x2000 <= c.toNat && c.toNat <= 0x200a) ||
  c.toNat = 0x2028 || c.toNat = 0x2029 || c.toNat = 0x202f || c.toNat = 0x205f ||
  c.toNat = 0x3000 || c.toNat = 0xfeff

/-- Character class of the JavaScript regex token for word characters:
ASCII letters, digits and underscore. -/
def isWordChar (c : Char) : Bool :=
  c.isAlphanum || c = '_'

/-- JavaScript `String.prototype.trim`: strip whitespace from both ends. -/
def jsTrim (l : List Char) : List Char :=
  ((l.dropWhile jsIsSpace).reverse.dropWhile jsIsSpace).reverse

/-- JavaScript `String.prototype.toLowerCase` restricted to ASCII case
mapping, which is all the backend relies on. -/
def lowerAll (l : List Char) : List Char :=
  l.map Char.toLower

/-- Worker for `splitWs`.  `none` means the scanner is inside a whitespace
run whose separator has already been emitted; `some cur` holds the current
token read so far, reversed. -/
def splitWsGo : List Char → Option (List Char) → List (List Char)
  | [], none => [[]]
  | [], some cur => [cur.reverse]
  | c :: rest, none =>
      if jsIsSpace c then splitWsGo rest none else splitWsGo rest (some [c])
  | c :: rest, some cur =>
      if jsIsSpace c then cur.reverse :: splitWsGo rest none
      else splitWsGo rest (some (c :: cur))

/-- JavaScript `text.split(/\s+/)`: split into the (possibly empty) pieces
between maximal whitespace runs. -/
def splitWs (l : List Char) : List (List Char) :=
  splitWsGo l (some [])

/-- Worker for `collapseWs`; the flag records whether the previous character
was part of a whitespace run already replaced by a hyphen. -/
def collapseWsGo : Bool → List Char → List Char
  | _, [] => []
  | inWs, c :: rest =>
      if jsIsSpace c then
        if inWs then collapseWsGo true rest else '-' :: collapseWsGo true rest
      else c :: collapseWsGo false rest

/-- JavaScript `s.replace(/\s+/g, '-')`: each maximal whitespace run becomes
a single hyphen. -/
def collapseWs (l : List Char) : List Char :=
  collapseWsGo false l

/-- Worker for `natToChars`; the first argument is recursion fuel, always
sufficient because a number has at most `n + 1` decimal digits. -/
def natToCharsGo : Nat → Nat → List Char
  | 0, _ => []
  | fuel + 1, n =>
      if n < 10 then [Char.ofNat (48 + n)]
      else natToCharsGo fuel (n / 10) ++ [Char.ofNat (48 + n % 10)]

/-- Decimal rendering of a natural number, as JavaScript template literals
render a non-negative integer. -/
def natToChars (n : Nat) : List Char :=
  natToCharsGo (n + 1) n

/-- The suffix `-chunk-<index+1>.wav` appended by
`generateSafeFilenameFromText` in src/Code.js. -/
def chunkSuffix (chunkIndex : Nat) : List Char :=
  "-chunk-".data ++ natToChars (chunkIndex + 1) ++ ".wav".data

/-- The sanitized stem built by `generateSafeFilenameFromText` in
src/Code.js: first 6 whitespace-delimited words, joined by single spaces,
with everything outside `[\w\s-]` removed, and whitespace runs collapsed to
hyphens. -/
def sanitizedStem (text : List Char) : List Char :=
  collapseWs ((List.intercalate [' '] ((splitWs text).take 6)).filter
    (fun c => isWordChar c || jsIsSpace c || c = '-'))

/-- Function `generateSafeFilenameFromText` from src/Code.js: stem plus
`-chunk-<index+1>.wav`, the whole string cut to its first 250 characters by
`String.prototype.substring(0, 250)`. -/
def generateSafeFilenameFromText (text : List Char) (chunkIndex : Nat) : List Char :=
  (sanitizedStem text ++ chunkSuffix chunkIndex).take 250


/-- The lookahead `(?=\\s*\\d+\\.\\s)` of the chunk-splitting regex in
`extractTextFromPdf` (src/Code.js): optional whitespace, at least one digit,
a period, then one whitespace character. -/
def lookMatch (l : List Char) : Bool :=
  let r := l.dropWhile jsIsSpace
  (r.takeWhile Char.isDigit ≠ []) &&
  (match r.dropWhile Char.isDigit with
   | '.' :: c :: _ => jsIsSpace c
   | _ => false)

/-- The splitting boundary as the claim words it: a newline preceding a line
that begins, after optional whitespace, with an integer followed by a period
— no requirement on what follows the period.  Stated only to compare the
claim's wording against the code's regex. -/
def claimedLookMatch (l : List Char) : Bool :=
  let r := l.dropWhile jsIsSpace
  (r.takeWhile Char.isDigit ≠ []) &&
  (match r.dropWhile Char.isDigit with
   | '.' :: _ => true
   | _ => false)

/-- JavaScript `text.split(re)` for a regex matching one newline carrying a
lookahead `p`: the newline is consumed as a separator exactly where `p`
holds of the remainder of the text. -/
def splitAtMarkedNewlines (p : List Char → Bool) : List Char → List (List Char)
  | [] => [[]]
  | c :: rest =>
      if c = '\n' && p rest then [] :: splitAtMarkedNewlines p rest
      else
        match splitAtMarkedNewlines p rest with
        | [] => [[c]]
        | h :: t => (c :: h) :: t

/-- The pure splitting step of `extractTextFromPdf` (src/Code.js):
`text.split(re).map(chunk => chunk.trim()).filter(chunk => chunk)` with the
newline-lookahead regex. -/
def extractTextChunks (text : List Char) : List (List Char) :=
  ((splitAtMarkedNewlines lookMatch text).map jsTrim).filter (fun c => c ≠ [])

/-- The chunker as described by the claim's boundary wording, for
comparison with `extractTextChunks`. -/
def claimedChunks (text : List Char) : List (List Char) :=
  ((splitAtMarkedNewlines claimedLookMatch text).map jsTrim).filter (fun c => c ≠ [])


/-- Little-endian byte pair stored by the JS `DataView.setUint16` calls in
`createWavBlob` (src/Gemini.js). -/
def le16 (v : Nat) : List Nat := [v % 256, v / 256 % 256]

/-- Little-endian byte quadruple stored by `DataView.setUint32`; taking each
byte modulo 256 realizes the ToUint32 wrap of the stored value. -/
def le32 (v : Nat) : List Nat :=
  [v % 256, v / 256 % 256, v / 65536 % 256, v / 16777216 % 256]

/-- Function `writeString` from src/Gemini.js: the code units of an ASCII tag, one
byte each (`setUint8` wraps modulo 256). -/
def strBytes (s : String) : List Nat := s.data.map (fun c => c.toNat % 256)

/-- Function `createWavBlob` from src/Gemini.js: the 44-byte RIFF/WAVE header written
field by field at offsets 0..43, followed by the raw PCM bytes. -/
def createWavBlob (pcmData : List Nat) : List Nat :=
  let sampleRate := 24000
  let numChannels := 1
  let bitsPerSample := 16
  let byteRate := sampleRate * numChannels * bitsPerSample / 8
  let blockAlign := numChannels * bitsPerSample / 8
  let dataSize := pcmData.length
  let fileSize := 36 + dataSize
  strBytes "RIFF" ++ le32 fileSize ++ strBytes "WAVE" ++
  strBytes "fmt " ++ le32 16 ++ le16 1 ++ le16 numChannels ++
  le32 sampleRate ++ le32 byteRate ++ le16 blockAlign ++ le16 bitsPerSample ++
  strBytes "data" ++ le32 dataSize ++ pcmData

/-- Little-endian 16-bit decode at a byte offset. -/
def readLE16 (bytes : List Nat) (off : Nat) : Nat :=
  match bytes.drop off with
  | a :: b :: _ => a + 256 * b
  | _ => 0

/-- Little-endian 32-bit decode at a byte offset. -/
def readLE32 (bytes : List Nat) (off : Nat) : Nat :=
  match bytes.drop off with
  | a :: b :: c :: d :: _ => a + 256 * b + 65536 * c + 16777216 * d
  | _ => 0


/-- The character class `[a-zA-Z0-9_-]` of the Drive-id regex in
`getFileIdFromUrl` (src/Code.js). -/
def driveIdChar (c : Char) : Bool :=
  c.isAlphanum || c = '_' || c = '-'

/-- Function `getFileIdFromUrl` from src/Code.js: first match of
`\\/d\\/([a-zA-Z0-9_-]+)` scanning left to right, returning the captured
maximal id-character run, or none. -/
def getFileIdFromUrl : List Char → Option (List Char)
  | [] => none
  | c :: rest =>
    match c, rest with
    | '/', 'd' :: '/' :: tail =>
        if tail.takeWhile driveIdChar = [] then getFileIdFromUrl rest
        else some (tail.takeWhile driveIdChar)
    | _, _ => getFileIdFromUrl rest

/-- The access-control columns of one ledger row as read by
`getAssessmentPdf` (src/Code.js): PDF_URL, AUDIO_JSON, PASSWORD and
STUDENT_EMAILS cells. -/
structure GateRow where
  pdfUrl : List Char
  audioJson : List Char
  password : List Char
  studentEmails : List Char
deriving DecidableEq

/-- Outcome of the serving gate, tagging each return of
`getAssessmentPdf`. -/
inductive GateResult where
  | notFound
  | notReady
  | invalidUrl
  | notPdf
  | success (fileId : List Char) (fileName : List Char) (audioJson : List Char)
deriving DecidableEq

/-- The Drive collaborator as the serving gate consults it: whether a file
id denotes a PDF, and the file's name. -/
structure DriveEnv where
  isPdf : List Char → Bool
  fileName : List Char → List Char

/-- Function `getAssessmentPdf` from src/Code.js, scanning the data rows in order:
skip rows with a falsy URL, trimmed password or email cell; on the first
row whose trimmed, lowercased email list contains the normalized requester
email AND whose trimmed stored password equals the supplied password
exactly, serve (or report not-ready when the manifest cell is empty);
otherwise fall through to the generic not-found. -/
def getAssessmentPdf (env : DriveEnv) (email password : List Char) :
    List GateRow → GateResult
  | [] => .notFound
  | row :: rest =>
    let sheetPassword := jsTrim row.password
    let studentEmailsRaw := lowerAll row.studentEmails
    if row.pdfUrl = [] ∨ sheetPassword = [] ∨ studentEmailsRaw = [] then
      getAssessmentPdf env email password rest
    else
      let studentEmails := (studentEmailsRaw.splitOn ',').map jsTrim
      let cleanEmail := jsTrim (lowerAll email)
      if cleanEmail ∈ studentEmails ∧ password = sheetPassword then
        if row.audioJson = [] then .notReady
        else
          match getFileIdFromUrl row.pdfUrl with
          | none => .invalidUrl
          | some fileId =>
              if env.isPdf fileId then
                .success fileId (env.fileName fileId) row.audioJson
              else .notPdf
      else getAssessmentPdf env email password rest

/-- A row passes `getAssessmentPdf`'s guards and credential test for the
given requester. -/
def rowMatches (email password : List Char) (r : GateRow) : Prop :=
  r.pdfUrl ≠ [] ∧ jsTrim r.password ≠ [] ∧ lowerAll r.studentEmails ≠ [] ∧
  jsTrim (lowerAll email) ∈ ((lowerAll r.studentEmails).splitOn ',').map jsTrim ∧
  password = jsTrim r.password

instance (email password : List Char) (r : GateRow) :
    Decidable (rowMatches email password r) := by
  unfold rowMatches
  infer_instance

/-- A Drive environment in which every file id denotes a PDF named
"assessment.pdf". -/
def gateEnv : DriveEnv :=
  ⟨fun _ => true, fun _ => "assessment.pdf".data⟩

/-- A completed row: secret "pw1", authorized identity "a@x.com", manifest
present. -/
def gateRowComplete : GateRow :=
  ⟨"https://drive.google.com/file/d/abc123/view".data, "[]".data,
   "pw1".data, "a@x.com".data⟩

/-- A row matching `gateRowComplete` but with no manifest recorded. -/
def gateRowNoManifest : GateRow :=
  ⟨"https://drive.google.com/file/d/abc123/view".data, [],
   "pw1".data, "a@x.com".data⟩

/-- A row whose identity column separates two entries with a semicolon. -/
def gateRowSemicolon : GateRow :=
  ⟨"https://drive.google.com/file/d/abc123/view".data, "[]".data,
   "pw1".data, "a@x.com;b@x.com".data⟩


/-- One audio artifact stored in the per-assessment Drive subfolder: its
Drive file id and its file name. -/
structure Artifact where
  id : List Char
  name : List Char
deriving DecidableEq

/-- The external collaborators of the step-2 chunk loop:
`folder.getFilesByName` (first file of the iterator, or none) and
`generateAudioFromTextChunk` (the synthesized and saved file, or null). -/
structure GenEnv where
  lookup : List Char → Option Artifact
  synth : List Char → List Char → Option Artifact

/-- Expression `fileName.replace(re, empty).trim()` from src/Code.js, where the regex
removes one case-insensitive trailing `.pdf`. -/
def stripPdfExt (l : List Char) : List Char :=
  if (l.drop (l.length - 4)).map Char.toLower = ".pdf".data then
    jsTrim (l.take (l.length - 4))
  else jsTrim l

/-- A legacy chunk name, `<stem>-chunk-<j+1>.wav`, from src/Code.js. -/
def legacyName (stem : List Char) (j : Nat) : List Char :=
  stem ++ "-chunk-".data ++ natToChars (j + 1) ++ ".wav".data

/-- The three-tier existence check of src/Code.js lines 190-196: canonical
name first, then the two legacy names; first hit wins. -/
def resolveExisting (lookup : List Char → Option Artifact) (n1 n2 n3 : List Char) :
    Option Artifact :=
  match lookup n1 with
  | some f => some f
  | none =>
    match lookup n2 with
    | some f => some f
    | none => lookup n3

/-- Processing of one chunk in the step-2 loop: reuse a resolved artifact,
else synthesize under the canonical name.  The boolean records whether the
synthesizer was called. -/
def resolveChunk (env : GenEnv) (fileName baseName chunkText : List Char) (j : Nat) :
    Option Artifact × Bool :=
  match resolveExisting env.lookup (generateSafeFilenameFromText chunkText j)
      (legacyName baseName j) (legacyName fileName j) with
  | some f => (some f, false)
  | none => (env.synth chunkText (generateSafeFilenameFromText chunkText j), true)

/-- The per-row chunk loop of `step2_GenerateMissingAudioAndFinalize`:
returns whether all chunks were processed, the collected artifacts in
order, and the indices for which the synthesizer was called.  On the first
failed chunk it stops immediately (the `break`). -/
def genLoopGo (env : GenEnv) (fileName baseName : List Char) :
    List (List Char) → Nat → List Artifact → List Nat →
    Bool × List Artifact × List Nat
  | [], _, acc, calls => (true, acc.reverse, calls.reverse)
  | t :: rest, j, acc, calls =>
    match resolveChunk env fileName baseName t j with
    | (some f, b) => genLoopGo env fileName baseName rest (j + 1) (f :: acc)
        (if b then j :: calls else calls)
    | (none, b) => (false, acc.reverse, (if b then j :: calls else calls).reverse)

/-- The chunk loop started at index 0 with empty accumulators. -/
def genLoop (env : GenEnv) (fileName baseName : List Char)
    (chunks : List (List Char)) : Bool × List Artifact × List Nat :=
  genLoopGo env fileName baseName chunks 0 [] []

/-- One entry of the audio manifest written to the AUDIO_JSON column. -/
structure ManifestEntry where
  text : List Char
  audioUrl : List Char
  audioFilename : List Char
deriving DecidableEq

/-- The manifest rows built in the finalization loop of step 2. -/
def manifestOf (chunks : List (List Char)) (arts : List Artifact) :
    List ManifestEntry :=
  (chunks.zip arts).map (fun p =>
    ⟨p.1, "https://drive.google.com/uc?id=".data ++ p.2.id ++ "&export=media".data,
     p.2.name⟩)

/-- The persisted fields of one ledger row that step 2 reads and writes. -/
structure Row where
  pdfUrl : List Char
  chunk_count : Nat
  audio_manifest : Option (List ManifestEntry)
  is_complete : Bool
deriving DecidableEq

/-- The per-row external context of one step-2 iteration: whether the
assessment subfolder was obtained, the Drive file name of the PDF, the
chunks extracted by `extractTextFromPdf` (none on extraction failure), and
the folder/synthesizer environment. -/
structure RowCtx where
  folderOk : Bool
  fileName : List Char
  chunks : Option (List (List Char))
  env : GenEnv

/-- The body of the step-2 row loop (src/Code.js lines 154-234) for one
row: guards, chunk-count consistency check, chunk loop, and all-or-nothing
finalization.  Returns the updated row and the synthesizer-call trace. -/
def step2ProcessRow (ctx : RowCtx) (row : Row) : Row × List Nat :=
  if row.pdfUrl ≠ [] ∧ 0 < row.chunk_count ∧ row.is_complete = false then
    match getFileIdFromUrl row.pdfUrl with
    | none => (row, [])
    | some _ =>
      if ctx.folderOk then
        match ctx.chunks with
        | none => (row, [])
        | some textChunks =>
          if textChunks.length = row.chunk_count then
            match genLoop ctx.env ctx.fileName (stripPdfExt ctx.fileName) textChunks with
            | (ok, arts, calls) =>
              if ok = true ∧ arts.length = row.chunk_count then
                ({ row with
                    audio_manifest := some (manifestOf textChunks arts),
                    is_complete := true }, calls)
              else (row, calls)
          else (row, [])
      else (row, [])
  else (row, [])

/-- Constant `SCRIPT_TIMEOUT_MS` from src/Code.js. -/
def SCRIPT_TIMEOUT_MS : Nat := 5 * 60 * 1000

/-- The step-2 row loop with the elapsed-time check at the top of each
iteration: `elapsed k` is the wall-clock time elapsed when row `k` is about
to start; on exceeding the budget the loop breaks, leaving the remaining
rows untouched. -/
def step2Go (ctxs : Nat → RowCtx) (elapsed : Nat → Nat) :
    Nat → List Row → List Row
  | _, [] => []
  | k, r :: rest =>
    if SCRIPT_TIMEOUT_MS < elapsed k then r :: rest
    else (step2ProcessRow (ctxs k) r).1 :: step2Go ctxs elapsed (k + 1) rest

/-- Function `step2_GenerateMissingAudioAndFinalize` from src/Code.js as a function
of the data rows, the per-row external contexts and the clock. -/
def step2_GenerateMissingAudioAndFinalize (ctxs : Nat → RowCtx)
    (elapsed : Nat → Nat) (rows : List Row) : List Row :=
  step2Go ctxs elapsed 0 rows

/-- Function `step0_addNewPdfs` from src/Code.js, modelled on the PDF_URL column:
the existing column values (header included), then one appended row per
listed file whose URL is not already present.  The membership snapshot is
taken before the loop, exactly as the code builds its `Set` once. -/
def step0_addNewPdfs (rows files : List (List Char)) : List (List Char) :=
  rows ++ files.filter (fun u => decide (u ∉ rows))

/-- Chunk-loop environment for the C2 witness: artifacts exist for the
canonical names of chunks 0 and 1; every synthesis call fails. -/
def c2Env : GenEnv :=
  ⟨fun n =>
     if n = generateSafeFilenameFromText "1. Apple".data 0 then some ⟨"idA".data, n⟩
     else if n = generateSafeFilenameFromText "2. Banana".data 1 then some ⟨"idB".data, n⟩
     else none,
   fun _ _ => none⟩

/-- Row context for the C2 witness: subfolder ok, three extracted chunks. -/
def c2Ctx : RowCtx :=
  ⟨true, "quiz.pdf".data,
   some ["1. Apple".data, "2. Banana".data, "3. Cherry".data], c2Env⟩

/-- Ledger row for the C2 witness: three recorded chunks, not complete, no
manifest. -/
def c2Row : Row :=
  ⟨"https://drive.google.com/file/d/abc123/view".data, 3, none, false⟩

/-- Environment for the C6 witness: only the stem legacy name of chunk 0
exists; synthesis always fails. -/
def c6Env : GenEnv :=
  ⟨fun n => if n = legacyName "quiz".data 0 then some ⟨"idL".data, n⟩ else none,
   fun _ _ => none⟩

/-- Row context for the C7 witness: extraction yields no chunks, so a
processed row is returned unchanged. -/
def c7Ctx : RowCtx :=
  ⟨true, "quiz.pdf".data, none, ⟨fun _ => none, fun _ _ => none⟩⟩

/-- Clock for the C7 witness: the budget is exceeded exactly when row 1 is
about to start. -/
def c7Elapsed (j : Nat) : Nat :=
  if j = 0 then 0 else 400000

/-- Digit characters rendered by `natToCharsGo` satisfy `Char.isDigit`. -/
theorem charOfNat_digit {d : Nat} (h : d < 10) : (Char.ofNat (48 + d)).isDigit = true := by
  interval_cases d <;> decide

theorem natToCharsGo_digit (fuel : Nat) :
    ∀ n, ∀ c ∈ natToCharsGo fuel n, c.isDigit = true := by
  induction fuel with
  | zero => intro n c hc; simp [natToCharsGo] at hc
  | succ fuel ih =>
    intro n c hc
    simp only [natToCharsGo] at hc
    by_cases h : n < 10
    · rw [if_pos h] at hc
      simp only [List.mem_singleton] at hc
      subst hc
      exact charOfNat_digit h
    · rw [if_neg h] at hc
      rcases List.mem_append.mp hc with h1 | h2
      · exact ih (n / 10) c h1
      · simp only [List.mem_singleton] at h2
        subst h2
        exact charOfNat_digit (Nat.mod_lt _ (by omega))

theorem natToChars_digit (n : Nat) : ∀ c ∈ natToChars n, c.isDigit = true :=
  natToCharsGo_digit (n + 1) n

theorem isWordChar_of_isDigit {c : Char} (h : c.isDigit = true) : isWordChar c = true := by
  simp [isWordChar, Char.isAlphanum, h]

/-- Every character of the appended chunk suffix is a word character, a
hyphen, or the extension dot. -/
theorem chunkSuffix_chars (N : Nat) :
    ∀ c ∈ chunkSuffix N, isWordChar c = true ∨ c = '-' ∨ c = '.' := by
  intro c hc
  unfold chunkSuffix at hc
  rcases List.mem_append.mp hc with h | h
  · rcases List.mem_append.mp h with h1 | h2
    · have hd : "-chunk-".data = ['-', 'c', 'h', 'u', 'n', 'k', '-'] := rfl
      rw [hd] at h1
      fin_cases h1 <;> decide
    · exact Or.inl (isWordChar_of_isDigit (natToChars_digit _ c h2))
  · have hd : ".wav".data = ['.', 'w', 'a', 'v'] := rfl
    rw [hd] at h
    fin_cases h <;> decide

/-- Whitespace collapsing yields only word characters and hyphens when fed
the output of the sanitizing filter. -/
theorem collapseWsGo_chars (l : List Char) :
    ∀ b : Bool, (∀ c ∈ l, isWordChar c = true ∨ jsIsSpace c = true ∨ c = '-') →
      ∀ c ∈ collapseWsGo b l, isWordChar c = true ∨ c = '-' := by
  induction l with
  | nil => intro b _ c hc; simp [collapseWsGo] at hc
  | cons x rest ih =>
    intro b hl c hc
    have hrest : ∀ c ∈ rest, isWordChar c = true ∨ jsIsSpace c = true ∨ c = '-' :=
      fun c hc => hl c (List.mem_cons_of_mem _ hc)
    simp only [collapseWsGo] at hc
    by_cases hx : jsIsSpace x
    · rw [if_pos hx] at hc
      cases b with
      | true => exact ih true hrest c (by rwa [if_pos rfl] at hc)
      | false =>
        rw [if_neg (by simp)] at hc
        rcases List.mem_cons.mp hc with h | h
        · exact Or.inr h
        · exact ih true hrest c h
    · rw [if_neg hx] at hc
      rcases List.mem_cons.mp hc with h | h
      · subst h
        rcases hl c (List.mem_cons_self _ _) with hw | hs | hh
        · exact Or.inl hw
        · exact absurd hs hx
        · exact Or.inr hh
      · exact ih false hrest c h

/-- C1 (amended): for every chunk text `T` and 0-based ordinal `N`, the name
produced by `generateSafeFilenameFromText T N` is at most 250 characters
long, every character of it lies in `[A-Za-z0-9_-]` or is the dot of the
`.wav` extension, and whenever the sanitized stem plus the suffix fits in
250 characters the name ends with `-chunk-<N+1>.wav`.  (The truncation to
250 characters CAN split off the extension; the code truncates blindly.) -/
theorem generateSafeFilenameFromText_spec (text : List Char) (N : Nat) :
    (generateSafeFilenameFromText text N).length ≤ 250 ∧
    (∀ c ∈ generateSafeFilenameFromText text N, isWordChar c = true ∨ c = '-' ∨ c = '.') ∧
    ((sanitizedStem text).length + (chunkSuffix N).length ≤ 250 →
      chunkSuffix N <:+ generateSafeFilenameFromText text N) := by
  refine ⟨?_, ?_, ?_⟩
  · unfold generateSafeFilenameFromText
    simp [List.length_take]
  · intro c hc
    have hc' : c ∈ sanitizedStem text ++ chunkSuffix N :=
      List.take_subset _ _ hc
    rcases List.mem_append.mp hc' with h | h
    · unfold sanitizedStem collapseWs at h
      have := collapseWsGo_chars _ false ?_ c h
      · tauto
      · intro d hd
        have hp := List.of_mem_filter hd
        simp only [Bool.or_eq_true, decide_eq_true_eq] at hp
        tauto
    · exact chunkSuffix_chars N c h
  · intro hlen
    unfold generateSafeFilenameFromText
    rw [List.take_of_length_le (by simp only [List.length_append]; omega)]
    exact List.suffix_append _ _

/-- Witness for C1: at a concrete short input the bound, the character-set
property and the suffix property all hold. -/
theorem generateSafeFilenameFromText_spec_witness :
    (generateSafeFilenameFromText "hello world".data 0).length ≤ 250 ∧
    (∀ c ∈ generateSafeFilenameFromText "hello world".data 0,
        isWordChar c = true ∨ c = '-' ∨ c = '.') ∧
    chunkSuffix 0 <:+ generateSafeFilenameFromText "hello world".data 0 := by
  obtain ⟨h1, h2, h3⟩ := generateSafeFilenameFromText_spec "hello world".data 0
  exact ⟨h1, h2, h3 (by decide)⟩

/-- C1 counterexample: for a chunk whose first word has 250 characters, the
name is truncated to 250 characters and does NOT end with `-chunk-1.wav` —
`substring(0, 250)` splits the extension off, contrary to the claim. -/
theorem generateSafeFilenameFromText_cex :
    ¬ (chunkSuffix 0 <:+ generateSafeFilenameFromText (List.replicate 250 'a') 0) := by
  decide

theorem intercalate_single (sep x : List Char) : List.intercalate sep [x] = x := by
  simp [List.intercalate]

theorem intercalate_cons_cons (sep a b : List Char) (l : List (List Char)) :
    List.intercalate sep (a :: b :: l) = a ++ sep ++ List.intercalate sep (b :: l) := by
  simp [List.intercalate, List.intersperse]

theorem splitAtMarkedNewlines_ne_nil (p : List Char → Bool) (t : List Char) :
    splitAtMarkedNewlines p t ≠ [] := by
  cases t with
  | nil => simp [splitAtMarkedNewlines]
  | cons c rest =>
    unfold splitAtMarkedNewlines
    by_cases h : (c = '\n' && p rest) = true
    · rw [if_pos h]; simp
    · rw [if_neg h]
      cases hs : splitAtMarkedNewlines p rest <;> simp

/-- Splitting is lossless: interposing the removed newlines restores the
original text. -/
theorem splitAtMarkedNewlines_intercalate (p : List Char → Bool) :
    ∀ t : List Char, List.intercalate ['\n'] (splitAtMarkedNewlines p t) = t := by
  intro t
  induction t with
  | nil => simp [splitAtMarkedNewlines, List.intercalate]
  | cons c rest ih =>
    unfold splitAtMarkedNewlines
    by_cases h : (c = '\n' && p rest) = true
    · obtain ⟨hc, hp⟩ : c = '\n' ∧ p rest = true := by simpa using h
      rw [if_pos h]
      cases hs : splitAtMarkedNewlines p rest with
      | nil => exact absurd hs (splitAtMarkedNewlines_ne_nil p rest)
      | cons a l =>
        rw [hs] at ih
        rw [intercalate_cons_cons, ih, hc]
        rfl
    · rw [if_neg h]
      cases hs : splitAtMarkedNewlines p rest with
      | nil => exact absurd hs (splitAtMarkedNewlines_ne_nil p rest)
      | cons a l =>
        rw [hs] at ih
        cases l with
        | nil =>
          rw [intercalate_single] at ih
          rw [intercalate_single, ih]
        | cons b l2 =>
          rw [intercalate_cons_cons] at ih
          rw [intercalate_cons_cons, List.cons_append, List.cons_append, ih]

/-- Every split point carried the lookahead, and re-splitting the text that
followed a split point reproduces exactly the remaining pieces. -/
theorem splitAtMarkedNewlines_tail (p : List Char → Bool) :
    ∀ t h tl, splitAtMarkedNewlines p t = h :: tl → tl ≠ [] →
      p (List.intercalate ['\n'] tl) = true ∧
      splitAtMarkedNewlines p (List.intercalate ['\n'] tl) = tl := by
  intro t
  induction t with
  | nil =>
    intro h tl heq hne
    simp only [splitAtMarkedNewlines] at heq
    injection heq with h1 h2
    exact absurd h2.symm hne
  | cons c rest ih =>
    intro h tl heq hne
    unfold splitAtMarkedNewlines at heq
    by_cases hb : (c = '\n' && p rest) = true
    · obtain ⟨hc, hp⟩ : c = '\n' ∧ p rest = true := by simpa using hb
      rw [if_pos hb] at heq
      injection heq with h1 h2
      subst h2
      rw [splitAtMarkedNewlines_intercalate]
      exact ⟨hp, rfl⟩
    · rw [if_neg hb] at heq
      cases hs : splitAtMarkedNewlines p rest with
      | nil => exact absurd hs (splitAtMarkedNewlines_ne_nil p rest)
      | cons a l =>
        rw [hs] at heq
        injection heq with h1 h2
        subst h2
        exact ih a l hs hne

/-- C5 (amended): the Chunker splits at newlines that precede, after
optional whitespace, an integer followed by a period AND a whitespace
character; each chunk is trimmed and empty chunks are discarded.  On
"1. Apple\n2. Banana" it yields exactly the chunks "1. Apple" and
"2. Banana".  Splitting is deterministic and lossless: joining the raw
pieces with newlines restores the text, every split point satisfied the
lookahead, and re-splitting the text after a split point reproduces the
remaining pieces. -/
theorem extractTextChunks_spec :
    extractTextChunks "1. Apple\n2. Banana".data
        = ["1. Apple".data, "2. Banana".data] ∧
    (∀ t : List Char, List.intercalate ['\n'] (splitAtMarkedNewlines lookMatch t) = t) ∧
    (∀ t h tl, splitAtMarkedNewlines lookMatch t = h :: tl → tl ≠ [] →
      lookMatch (List.intercalate ['\n'] tl) = true ∧
      splitAtMarkedNewlines lookMatch (List.intercalate ['\n'] tl) = tl) :=
  ⟨by decide, splitAtMarkedNewlines_intercalate lookMatch,
    splitAtMarkedNewlines_tail lookMatch⟩

/-- Witness for C5: the split of "1. Apple\n2. Banana" has a boundary whose
remainder "2. Banana" satisfies the lookahead and re-splits to itself. -/
theorem extractTextChunks_spec_witness :
    lookMatch (List.intercalate ['\n'] ["2. Banana".data]) = true ∧
    splitAtMarkedNewlines lookMatch (List.intercalate ['\n'] ["2. Banana".data])
      = ["2. Banana".data] :=
  extractTextChunks_spec.2.2 "1. Apple\n2. Banana".data "1. Apple".data
    ["2. Banana".data] (by decide) (by decide)

/-- C5 counterexample: "1. Apple\n2.Banana" contains a newline preceding a
line that begins with an integer followed by a period, yet the code does
not split there — the regex additionally requires a whitespace after the
period — so the chunker returns one chunk where the claim's boundary
description produces two. -/
theorem extractTextChunks_cex :
    extractTextChunks "1. Apple\n2.Banana".data = ["1. Apple\n2.Banana".data] ∧
    claimedChunks "1. Apple\n2.Banana".data = ["1. Apple".data, "2.Banana".data] ∧
    extractTextChunks "1. Apple\n2.Banana".data ≠ claimedChunks "1. Apple\n2.Banana".data :=
  ⟨by decide, by decide, by decide⟩

/-- The container bytes spelled out: tags and fixed fields evaluate to
their concrete bytes, the two size fields stay symbolic in the PCM length. -/
theorem createWavBlob_as_list (pcm : List Nat) :
    createWavBlob pcm =
      [82, 73, 70, 70] ++ le32 (36 + pcm.length) ++
      [87, 65, 86, 69, 102, 109, 116, 32, 16, 0, 0, 0, 1, 0, 1, 0,
       192, 93, 0, 0, 128, 187, 0, 0, 2, 0, 16, 0, 100, 97, 116, 97] ++
      le32 pcm.length ++ pcm := rfl

/-- The stored RIFF-size field decodes to `36 + dataSize` modulo 2^32. -/
theorem createWavBlob_riffSize (pcm : List Nat) :
    readLE32 (createWavBlob pcm) 4 = (36 + pcm.length) % 4294967296 := by
  have h : readLE32 (createWavBlob pcm) 4 =
      (36 + pcm.length) % 256 + 256 * ((36 + pcm.length) / 256 % 256) +
      65536 * ((36 + pcm.length) / 65536 % 256) +
      16777216 * ((36 + pcm.length) / 16777216 % 256) := rfl
  rw [h]
  omega

/-- The stored data-chunk-size field decodes to `dataSize` modulo 2^32. -/
theorem createWavBlob_dataSize (pcm : List Nat) :
    readLE32 (createWavBlob pcm) 40 = pcm.length % 4294967296 := by
  have h : readLE32 (createWavBlob pcm) 40 =
      pcm.length % 256 + 256 * (pcm.length / 256 % 256) +
      65536 * (pcm.length / 65536 % 256) +
      16777216 * (pcm.length / 16777216 % 256) := rfl
  rw [h]
  omega

/-- C3 (amended): encoding M PCM bytes yields exactly 44 + M bytes whose
little-endian header fields decode to audio-format 1 (linear PCM), 1
channel, 24000 Hz, byte rate 48000, block align 2, 16 bits per sample, with
the RIFF-size and data-size fields stored modulo 2^32 (`setUint32` wraps) —
hence equal to 36 + M and M whenever 36 + M < 2^32 — and the M raw PCM
bytes follow the header unchanged. -/
theorem createWavBlob_spec (pcm : List Nat) :
    (createWavBlob pcm).length = 44 + pcm.length ∧
    readLE16 (createWavBlob pcm) 20 = 1 ∧
    readLE16 (createWavBlob pcm) 22 = 1 ∧
    readLE32 (createWavBlob pcm) 24 = 24000 ∧
    readLE32 (createWavBlob pcm) 28 = 48000 ∧
    readLE16 (createWavBlob pcm) 32 = 2 ∧
    readLE16 (createWavBlob pcm) 34 = 16 ∧
    readLE32 (createWavBlob pcm) 4 = (36 + pcm.length) % 4294967296 ∧
    readLE32 (createWavBlob pcm) 40 = pcm.length % 4294967296 ∧
    (createWavBlob pcm).drop 44 = pcm ∧
    (36 + pcm.length < 4294967296 →
      readLE32 (createWavBlob pcm) 4 = 36 + pcm.length ∧
      readLE32 (createWavBlob pcm) 40 = pcm.length) := by
  refine ⟨?_, ?_, ?_, ?_, ?_, ?_, ?_,
    createWavBlob_riffSize pcm, createWavBlob_dataSize pcm, ?_, ?_⟩
  · rw [createWavBlob_as_list]
    simp [le32]
    omega
  · rw [createWavBlob_as_list]; rfl
  · rw [createWavBlob_as_list]; rfl
  · rw [createWavBlob_as_list]; rfl
  · rw [createWavBlob_as_list]; rfl
  · rw [createWavBlob_as_list]; rfl
  · rw [createWavBlob_as_list]; rfl
  · rw [createWavBlob_as_list]; rfl
  · intro hM
    rw [createWavBlob_riffSize pcm, createWavBlob_dataSize pcm]
    omega

/-- Witness for C3: for the three-byte payload [1, 2, 3] the size fields
decode exactly. -/
theorem createWavBlob_spec_witness :
    readLE32 (createWavBlob [1, 2, 3]) 4 = 36 + [1, 2, 3].length ∧
    readLE32 (createWavBlob [1, 2, 3]) 40 = [1, 2, 3].length :=
  (createWavBlob_spec [1, 2, 3]).2.2.2.2.2.2.2.2.2.2 (by decide)

/-- C3 counterexample: for a PCM payload of 2^32 − 36 bytes (a legal array
length) the stored RIFF-size field wraps to 0 instead of decoding to
36 + M: `setUint32` stores the value modulo 2^32. -/
theorem createWavBlob_cex :
    readLE32 (createWavBlob (List.replicate 4294967260 0)) 4
      ≠ 36 + (List.replicate 4294967260 (0 : Nat)).length := by
  rw [createWavBlob_riffSize, List.length_replicate]
  norm_num

theorem dropWhile_eq_self_of (p : Char → Bool) (l : List Char)
    (h : ∀ c ∈ l, p c = false) : l.dropWhile p = l := by
  cases l with
  | nil => rfl
  | cons x xs => simp [List.dropWhile_cons, h x (List.mem_cons_self x xs)]

theorem jsTrim_eq_self {l : List Char} (h : ∀ c ∈ l, jsIsSpace c = false) :
    jsTrim l = l := by
  unfold jsTrim
  rw [dropWhile_eq_self_of _ _ h,
    dropWhile_eq_self_of _ _ (fun c hc => h c (List.mem_reverse.mp hc)),
    List.reverse_reverse]

theorem splitOn_eq_single {c : Char} {l : List Char} (h : c ∉ l) :
    l.splitOn c = [l] := by
  refine List.splitOnP_eq_single _ _ ?_
  intro x hx hbeq
  rw [beq_iff_eq] at hbeq
  exact h (hbeq ▸ hx)

theorem mem_intercalate_sep {s : Char} {L : List (List Char)} :
    ∀ c ∈ List.intercalate [s] L, c = s ∨ ∃ e ∈ L, c ∈ e := by
  induction L with
  | nil => intro c hc; simp [List.intercalate] at hc
  | cons a l ih =>
    cases l with
    | nil =>
      intro c hc
      rw [intercalate_single] at hc
      exact Or.inr ⟨a, List.mem_cons_self a [], hc⟩
    | cons b l2 =>
      intro c hc
      rw [intercalate_cons_cons] at hc
      rcases List.mem_append.mp hc with h | h
      · rcases List.mem_append.mp h with h1 | h2
        · exact Or.inr ⟨a, List.mem_cons_self _ _, h1⟩
        · exact Or.inl (List.mem_singleton.mp h2)
      · rcases ih c h with h | ⟨e, he, hce⟩
        · exact Or.inl h
        · exact Or.inr ⟨e, List.mem_cons_of_mem _ he, hce⟩

theorem sep_mem_intercalate (s : Char) (a b : List Char) (l : List (List Char)) :
    s ∈ List.intercalate [s] (a :: b :: l) := by
  rw [intercalate_cons_cons]
  exact List.mem_append.mpr (Or.inl (List.mem_append.mpr (Or.inr (List.mem_singleton.mpr rfl))))

/-- C8: when the first credential-matching row the scan reaches has no
manifest recorded, the gate returns the distinct not-ready result — not a
partial manifest, not the generic not-found. -/
theorem getAssessmentPdf_notReady (env : DriveEnv) (email password : List Char)
    (pre : List GateRow) (r : GateRow) (rest : List GateRow)
    (hpre : ∀ p ∈ pre, ¬ rowMatches email password p)
    (hr : rowMatches email password r)
    (hnoManifest : r.audioJson = []) :
    getAssessmentPdf env email password (pre ++ r :: rest) = .notReady := by
  induction pre with
  | nil =>
    obtain ⟨h1, h2, h3, h4, h5⟩ := hr
    have hguard : ¬ (r.pdfUrl = [] ∨ jsTrim r.password = [] ∨ lowerAll r.studentEmails = []) := by
      push_neg
      exact ⟨h1, h2, h3⟩
    simp only [List.nil_append, getAssessmentPdf]
    rw [if_neg hguard, if_pos ⟨h4, h5⟩, if_pos hnoManifest]
  | cons p ps ih =>
    have hp := hpre p (List.mem_cons_self p ps)
    have ihs : getAssessmentPdf env email password (ps ++ r :: rest) = .notReady :=
      ih (fun q hq => hpre q (List.mem_cons_of_mem p hq))
    by_cases hg : (p.pdfUrl = [] ∨ jsTrim p.password = [] ∨ lowerAll p.studentEmails = [])
    · simp only [List.cons_append, getAssessmentPdf]
      rw [if_pos hg]
      exact ihs
    · have hnm : ¬ (jsTrim (lowerAll email) ∈ ((lowerAll p.studentEmails).splitOn ',').map jsTrim ∧
          password = jsTrim p.password) := by
        intro hcon
        push_neg at hg
        exact hp ⟨hg.1, hg.2.1, hg.2.2, hcon.1, hcon.2⟩
      simp only [List.cons_append, getAssessmentPdf]
      rw [if_neg hg, if_neg hnm]
      exact ihs

/-- Witness for C8: a concrete matching row with an empty manifest cell
produces the not-ready result. -/
theorem getAssessmentPdf_notReady_witness :
    getAssessmentPdf gateEnv "a@x.com".data "pw1".data [gateRowNoManifest] = .notReady :=
  getAssessmentPdf_notReady gateEnv "a@x.com".data "pw1".data [] gateRowNoManifest []
    (fun p hp => absurd hp (List.not_mem_nil p)) (by decide) rfl

/-- C4 (amended): the gate matches the requester identity case- and
whitespace-insensitively, but the supplied secret must equal the row's
trimmed stored secret EXACTLY — the supplied secret is not trimmed.  For a
completed row with secret "pw1" and authorized identity "a@x.com":
identity "A@X.com" (and even "  a@X.COM ") with secret "pw1" succeeds;
secret " pw1" yields the generic not-found; identity "b@x.com" yields the
generic not-found. -/
theorem getAssessmentPdf_matching_spec :
    getAssessmentPdf gateEnv "A@X.com".data "pw1".data [gateRowComplete]
      = .success "abc123".data "assessment.pdf".data "[]".data ∧
    getAssessmentPdf gateEnv "  a@X.COM ".data "pw1".data [gateRowComplete]
      = .success "abc123".data "assessment.pdf".data "[]".data ∧
    getAssessmentPdf gateEnv "A@X.com".data " pw1".data [gateRowComplete] = .notFound ∧
    getAssessmentPdf gateEnv "b@x.com".data "pw1".data [gateRowComplete] = .notFound :=
  ⟨by decide, by decide, by decide, by decide⟩

/-- C4 counterexample: the claim's call with matching identity "A@X.com"
and secret " pw1" (leading space) does NOT succeed — the supplied secret is
compared untrimmed against the trimmed stored secret "pw1", so the row is
passed over and the gate returns the generic not-found. -/
theorem getAssessmentPdf_cex :
    getAssessmentPdf gateEnv "A@X.com".data " pw1".data [gateRowComplete] = .notFound := by
  decide

/-- C10: the stored identity list is split on commas only; in a
semicolon-separated list the whole semicolon-joined group is one token, so
a requester whose exact identity is one of the semicolon-separated entries
is never matched, and the gate falls through to the generic not-found. -/
theorem getAssessmentPdf_semicolonList (env : DriveEnv) (email password : List Char)
    (r : GateRow) (entries : List (List Char))
    (hlen : 2 ≤ entries.length)
    (hchars : ∀ e ∈ entries, ∀ c ∈ e, c ≠ ',' ∧ c ≠ ';' ∧ jsIsSpace c = false)
    (hraw : lowerAll r.studentEmails = List.intercalate [';'] entries)
    (hemail : jsTrim (lowerAll email) ∈ entries) :
    jsTrim (lowerAll email) ∉ ((lowerAll r.studentEmails).splitOn ',').map jsTrim ∧
    getAssessmentPdf env email password [r] = .notFound := by
  obtain ⟨e1, e2, l, rfl⟩ : ∃ e1 e2 l, entries = e1 :: e2 :: l := by
    cases entries with
    | nil => simp at hlen
    | cons e1 t =>
      cases t with
      | nil => simp at hlen
      | cons e2 l => exact ⟨e1, e2, l, rfl⟩
  have hcomma : ',' ∉ List.intercalate [';'] (e1 :: e2 :: l) := by
    intro hmem
    rcases mem_intercalate_sep ',' hmem with h | ⟨e, he, hce⟩
    · exact absurd h (by decide)
    · exact (hchars e he ',' hce).1 rfl
  have hnospace : ∀ c ∈ List.intercalate [';'] (e1 :: e2 :: l), jsIsSpace c = false := by
    intro c hc
    rcases mem_intercalate_sep c hc with h | ⟨e, he, hce⟩
    · rw [h]; decide
    · exact (hchars e he c hce).2.2
  have hsem : (';' : Char) ∈ List.intercalate [';'] (e1 :: e2 :: l) :=
    sep_mem_intercalate ';' e1 e2 l
  have hne : jsTrim (lowerAll email) ≠ List.intercalate [';'] (e1 :: e2 :: l) := by
    intro heq
    have : (';' : Char) ∈ jsTrim (lowerAll email) := heq ▸ hsem
    exact (hchars _ hemail ';' this).2.1 rfl
  have hnotmem : jsTrim (lowerAll email) ∉
      ((lowerAll r.studentEmails).splitOn ',').map jsTrim := by
    rw [hraw, splitOn_eq_single hcomma]
    simp only [List.map_cons, List.map_nil, jsTrim_eq_self hnospace, List.mem_singleton]
    exact hne
  refine ⟨hnotmem, ?_⟩
  simp only [getAssessmentPdf]
  by_cases hg : (r.pdfUrl = [] ∨ jsTrim r.password = [] ∨ lowerAll r.studentEmails = [])
  · rw [if_pos hg]
  · rw [if_neg hg, if_neg (fun hcon => hnotmem hcon.1)]

/-- Witness for C10: requester "a@x.com" is listed verbatim in the
semicolon-separated cell "a@x.com;b@x.com" yet receives not-found. -/
theorem getAssessmentPdf_semicolonList_witness :
    jsTrim (lowerAll "a@x.com".data) ∉
      ((lowerAll gateRowSemicolon.studentEmails).splitOn ',').map jsTrim ∧
    getAssessmentPdf gateEnv "a@x.com".data "pw1".data [gateRowSemicolon] = .notFound :=
  getAssessmentPdf_semicolonList gateEnv "a@x.com".data "pw1".data gateRowSemicolon
    ["a@x.com".data, "b@x.com".data] (by decide) (by decide) (by decide) (by decide)

/-- C2: in one generation pass over a row with `chunk_count = 3` whose
first two chunks resolve to existing artifacts while every lookup and the
synthesis call for the third chunk fail, the row is returned unchanged —
`is_complete` still false and no `audio_manifest` written — and the only
synthesizer attempt is for the failing chunk 2 (the loop breaks there;
manifest and completion flag are persisted only when every chunk resolved). -/
theorem step2ProcessRow_abortOnFailure (ctx : RowCtx) (row : Row)
    (t0 t1 t2 : List Char) (a0 a1 : Artifact)
    (hchunks : ctx.chunks = some [t0, t1, t2])
    (hcount : row.chunk_count = 3)
    (hurl : getFileIdFromUrl row.pdfUrl ≠ none)
    (hfolder : ctx.folderOk = true)
    (hincomplete : row.is_complete = false)
    (h0 : resolveExisting ctx.env.lookup (generateSafeFilenameFromText t0 0)
        (legacyName (stripPdfExt ctx.fileName) 0) (legacyName ctx.fileName 0) = some a0)
    (h1 : resolveExisting ctx.env.lookup (generateSafeFilenameFromText t1 1)
        (legacyName (stripPdfExt ctx.fileName) 1) (legacyName ctx.fileName 1) = some a1)
    (h2 : resolveExisting ctx.env.lookup (generateSafeFilenameFromText t2 2)
        (legacyName (stripPdfExt ctx.fileName) 2) (legacyName ctx.fileName 2) = none)
    (h2s : ctx.env.synth t2 (generateSafeFilenameFromText t2 2) = none) :
    (step2ProcessRow ctx row).1 = row ∧ (step2ProcessRow ctx row).2 = [2] := by
  have hne : row.pdfUrl ≠ [] := fun hnil => hurl (by rw [hnil]; rfl)
  obtain ⟨fid, hfid⟩ : ∃ fid, getFileIdFromUrl row.pdfUrl = some fid := by
    cases hgf : getFileIdFromUrl row.pdfUrl with
    | none => exact absurd hgf hurl
    | some f => exact ⟨f, rfl⟩
  have hloop : genLoop ctx.env ctx.fileName (stripPdfExt ctx.fileName) [t0, t1, t2]
      = (false, [a0, a1], [2]) := by
    unfold genLoop
    simp [genLoopGo, resolveChunk, h0, h1, h2, h2s]
  have hkey : step2ProcessRow ctx row = (row, [2]) := by
    unfold step2ProcessRow
    rw [if_pos (show row.pdfUrl ≠ [] ∧ 0 < row.chunk_count ∧ row.is_complete = false from
      ⟨hne, by rw [hcount]; norm_num, hincomplete⟩)]
    rw [hfid, if_pos hfolder, hchunks]
    dsimp only
    rw [if_pos (show List.length [t0, t1, t2] = row.chunk_count by rw [hcount]; rfl)]
    rw [hloop]
    rw [if_neg (by simp)]
  rw [hkey]
  exact ⟨rfl, rfl⟩

/-- Witness for C2: a concrete row with three chunks, artifacts present for
chunks 0 and 1 and a failing synthesizer, is left unchanged with a single
synthesis attempt at index 2. -/
theorem step2ProcessRow_abortOnFailure_witness :
    (step2ProcessRow c2Ctx c2Row).1 = c2Row ∧ (step2ProcessRow c2Ctx c2Row).2 = [2] :=
  step2ProcessRow_abortOnFailure c2Ctx c2Row
    "1. Apple".data "2. Banana".data "3. Cherry".data
    ⟨"idA".data, generateSafeFilenameFromText "1. Apple".data 0⟩
    ⟨"idB".data, generateSafeFilenameFromText "2. Banana".data 1⟩
    rfl rfl (by decide) rfl rfl (by decide) (by decide) (by decide) (by decide)

/-- C6: the step-2 existence check tries exactly (1) the canonical
content-derived name, (2) the stem legacy name, (3) the full-file-name
legacy name; the first existing file is reused with no synthesizer call,
and only when all three are absent is audio generated, under the canonical
name. -/
theorem resolveChunk_order (env : GenEnv) (fileName baseName t : List Char) (j : Nat) :
    (∀ f, env.lookup (generateSafeFilenameFromText t j) = some f →
      resolveChunk env fileName baseName t j = (some f, false)) ∧
    (env.lookup (generateSafeFilenameFromText t j) = none →
      ∀ f, env.lookup (legacyName baseName j) = some f →
        resolveChunk env fileName baseName t j = (some f, false)) ∧
    (env.lookup (generateSafeFilenameFromText t j) = none →
      env.lookup (legacyName baseName j) = none →
      ∀ f, env.lookup (legacyName fileName j) = some f →
        resolveChunk env fileName baseName t j = (some f, false)) ∧
    (env.lookup (generateSafeFilenameFromText t j) = none →
      env.lookup (legacyName baseName j) = none →
      env.lookup (legacyName fileName j) = none →
        resolveChunk env fileName baseName t j
          = (env.synth t (generateSafeFilenameFromText t j), true)) := by
  refine ⟨?_, ?_, ?_, ?_⟩
  · intro f hf
    unfold resolveChunk resolveExisting
    rw [hf]
  · intro hn1 f hf
    unfold resolveChunk resolveExisting
    rw [hn1, hf]
  · intro hn1 hn2 f hf
    unfold resolveChunk resolveExisting
    rw [hn1, hn2, hf]
  · intro hn1 hn2 hn3
    unfold resolveChunk resolveExisting
    rw [hn1, hn2, hn3]

/-- Witness for C6: with only the stem legacy name present, the resolver
reuses that file and records no synthesizer call. -/
theorem resolveChunk_order_witness :
    resolveChunk c6Env "quiz.pdf".data "quiz".data "1. Apple".data 0
      = (some ⟨"idL".data, legacyName "quiz".data 0⟩, false) :=
  (resolveChunk_order c6Env "quiz.pdf".data "quiz".data "1. Apple".data 0).2.1
    (by decide) ⟨"idL".data, legacyName "quiz".data 0⟩ (by decide)

/-- The step-2 loop with the budget first exceeded at relative row index
`k` processes rows before `k` and returns every later row untouched. -/
theorem step2Go_budget (ctxs : Nat → RowCtx) (elapsed : Nat → Nat) :
    ∀ (rows : List Row) (i k : Nat),
      (∀ j, j < k → elapsed (i + j) ≤ SCRIPT_TIMEOUT_MS) →
      SCRIPT_TIMEOUT_MS < elapsed (i + k) →
      step2Go ctxs elapsed i rows
        = (rows.take k).mapIdx (fun j r => (step2ProcessRow (ctxs (i + j)) r).1)
          ++ rows.drop k := by
  intro rows
  induction rows with
  | nil => intro i k _ _; simp [step2Go]
  | cons r rest ih =>
    intro i k hbefore hat
    cases k with
    | zero =>
      unfold step2Go
      rw [if_pos (by simpa using hat)]
      simp
    | succ k2 =>
      have h0 : elapsed (i + 0) ≤ SCRIPT_TIMEOUT_MS := hbefore 0 (Nat.succ_pos k2)
      unfold step2Go
      rw [if_neg (by simp only [Nat.add_zero] at h0; omega)]
      have ih2 := ih (i + 1) k2
        (fun j hj => by
          have hb := hbefore (j + 1) (by omega)
          rwa [show i + (j + 1) = i + 1 + j from by omega] at hb)
        (by rwa [show i + (k2 + 1) = i + 1 + k2 from by omega] at hat)
      rw [ih2, List.take_succ_cons, List.drop_succ_cons, List.mapIdx_cons]
      rw [Nat.add_zero,
        show (fun (j : Nat) (r2 : Row) => (step2ProcessRow (ctxs (i + (j + 1))) r2).1)
          = (fun (j : Nat) (r2 : Row) => (step2ProcessRow (ctxs (i + 1 + j)) r2).1) from by
        funext j r2
        rw [show i + (j + 1) = i + 1 + j from by omega]]
      rfl

/-- C7: the elapsed-time check against the 5-minute ceiling happens only at
row boundaries, before starting each row; if every row before index `k`
started within budget and the budget is exceeded when row `k` is about to
start, the pass equals the processed first `k` rows followed by the
remaining rows COMPLETELY unchanged — a row is either fully processed for
the pass or left alone, never interrupted mid-row. -/
theorem step2_timeBudget (ctxs : Nat → RowCtx) (elapsed : Nat → Nat)
    (rows : List Row) (k : Nat)
    (hbefore : ∀ j, j < k → elapsed j ≤ SCRIPT_TIMEOUT_MS)
    (hat : SCRIPT_TIMEOUT_MS < elapsed k) :
    step2_GenerateMissingAudioAndFinalize ctxs elapsed rows
      = (rows.take k).mapIdx (fun j r => (step2ProcessRow (ctxs j) r).1)
        ++ rows.drop k := by
  have h := step2Go_budget ctxs elapsed rows 0 k
    (fun j hj => by simpa using hbefore j hj)
    (by simpa using hat)
  unfold step2_GenerateMissingAudioAndFinalize
  rw [h,
    show (fun (j : Nat) (r : Row) => (step2ProcessRow (ctxs (0 + j)) r).1)
      = (fun (j : Nat) (r : Row) => (step2ProcessRow (ctxs j) r).1) from by
    funext j r
    rw [Nat.zero_add]]

/-- Witness for C7: with the budget exceeded when row 1 is about to start,
a two-row pass processes row 0 and returns row 1 untouched. -/
theorem step2_timeBudget_witness :
    step2_GenerateMissingAudioAndFinalize (fun _ => c7Ctx) c7Elapsed [c2Row, c2Row]
      = ([c2Row, c2Row].take 1).mapIdx
          (fun j r => (step2ProcessRow ((fun _ => c7Ctx) j) r).1)
        ++ [c2Row, c2Row].drop 1 :=
  step2_timeBudget (fun _ => c7Ctx) c7Elapsed [c2Row, c2Row] 1
    (fun j hj => by
      rw [Nat.lt_one_iff.mp hj]
      decide)
    (by decide)

/-- C9: the discovery step appends, after the existing rows, exactly one
row per listed file whose URL is not already present in the sheet column,
and it is idempotent: a second run over the same documents (in any order
drawn from them) appends nothing. -/
theorem step0_addNewPdfs_spec (rows files : List (List Char)) :
    step0_addNewPdfs rows files
      = rows ++ files.filter (fun u => decide (u ∉ rows)) ∧
    (step0_addNewPdfs rows files).length
      = rows.length + (files.filter (fun u => decide (u ∉ rows))).length ∧
    (∀ files2 : List (List Char), files2 ⊆ files →
      step0_addNewPdfs (step0_addNewPdfs rows files) files2
        = step0_addNewPdfs rows files) := by
  refine ⟨rfl, by simp [step0_addNewPdfs], ?_⟩
  intro files2 hsub
  have hempty : files2.filter (fun u => decide (u ∉ step0_addNewPdfs rows files)) = [] := by
    rw [List.filter_eq_nil_iff]
    intro u hu
    simp only [decide_eq_true_eq, Decidable.not_not]
    by_cases h : u ∈ rows
    · exact List.mem_append.mpr (Or.inl h)
    · refine List.mem_append.mpr (Or.inr ?_)
      rw [List.mem_filter]
      exact ⟨hsub hu, by simpa using h⟩
  show step0_addNewPdfs rows files
      ++ files2.filter (fun u => decide (u ∉ step0_addNewPdfs rows files))
    = step0_addNewPdfs rows files
  rw [hempty, List.append_nil]

/-- Witness for C9: re-running discovery over the same two documents, even
reordered, appends nothing to the once-extended sheet. -/
theorem step0_addNewPdfs_spec_witness :
    step0_addNewPdfs (step0_addNewPdfs ["header".data, "u1".data] ["u1".data, "u2".data])
        ["u2".data, "u1".data]
      = step0_addNewPdfs ["header".data, "u1".data] ["u1".data, "u2".data] :=
  (step0_addNewPdfs_spec ["header".data, "u1".data] ["u1".data, "u2".data]).2.2
    ["u2".data, "u1".data] (by decide)
